import Mathlib

/-!
Verification of the playwright userscript manager core: the match-pattern
compiler and URL matcher (userscript-runner), the run-at injection plan
(main.js), the GM storage bridge (main.js), and the GM_xmlhttpRequest
bridge protocol (main.js together with the page-side polyfill).

All definitions are shallow embeddings of the JavaScript source.  The
regular expressions produced by `matchPatternToRegExp` fall into a small
fragment of JavaScript RegExp syntax (literals, character classes,
alternation, optional groups, star); that fragment is modelled by the
`Rgx` type below together with a Brzozowski-derivative matcher, so the
compiled matchers stay executable.
-/

namespace PUM

/-! ## A small regex engine (the fragment emitted by the compiler)

`Rgx.chr p` is a one-character class given by its membership predicate;
this covers literal characters (after the source has regex-escaped them),
`[^\/.]`, `[^\/]`, `.` (any char except line terminators) and `s?`.
Matching is by Brzozowski derivatives; the smart constructors keep the
derivative terms small so that concrete matching reduces quickly. -/

inductive Rgx where
  | emp : Rgx
  | eps : Rgx
  | chr : (Char → Bool) → Rgx
  | alt : Rgx → Rgx → Rgx
  | cat : Rgx → Rgx → Rgx
  | star : Rgx → Rgx

def nullable : Rgx → Bool
  | .emp => false
  | .eps => true
  | .chr _ => false
  | .alt a b => nullable a || nullable b
  | .cat a b => nullable a && nullable b
  | .star _ => true

def mkAlt : Rgx → Rgx → Rgx
  | .emp, b => b
  | a, .emp => a
  | a, b => .alt a b

def mkCat : Rgx → Rgx → Rgx
  | .emp, _ => .emp
  | _, .emp => .emp
  | .eps, b => b
  | a, .eps => a
  | a, b => .cat a b

def deriv : Rgx → Char → Rgx
  | .emp, _ => .emp
  | .eps, _ => .emp
  | .chr p, c => if p c then .eps else .emp
  | .alt a b, c => mkAlt (deriv a c) (deriv b c)
  | .cat a b, c =>
      if nullable a then mkAlt (mkCat (deriv a c) b) (deriv b c)
      else mkCat (deriv a c) b
  | .star a, c => mkCat (deriv a c) (.star a)

/-- Total match of a character list against a regex (the semantics of a
JavaScript regex anchored with both `^` and `$`, which is how every
compiled pattern is built; the `<all_urls>` regex, which has no `$`,
is encoded with a trailing `.star` of the universal class instead). -/
def rmatch (r : Rgx) : List Char → Bool
  | [] => nullable r
  | c :: cs => rmatch (deriv r c) cs

/-- Regex matching a literal character sequence (regex-escaping in the
source makes every host/path character outside the handled wildcards
literal, so the escaped text denotes exactly this). -/
def litR (s : List Char) : Rgx :=
  s.foldr (fun c r => .cat (.chr (fun d => d == c)) r) .eps

/-- JavaScript `.` (without the `s` flag): any char except line
terminators LF, CR, U+2028, U+2029. -/
def dotP (c : Char) : Bool :=
  !(c == '\n') && !(c == '\r') && !(c == Char.ofNat 0x2028) && !(c == Char.ofNat 0x2029)

def optR (r : Rgx) : Rgx := .alt .eps r

def plusR (r : Rgx) : Rgx := .cat r (.star r)

/-- `pre` is a prefix of `s` (used where the source calls `startsWith`
or anchors a regex at the start; kept on character lists so concrete
instances reduce in the kernel). -/
def isPrefixL (pre s : List Char) : Bool :=
  match pre, s with
  | [], _ => true
  | _ :: _, [] => false
  | p :: ps, c :: cs => p == c && isPrefixL ps cs

/-! ## The match-pattern compiler (userscript-runner, matchPatternToRegExp) -/

/-- Scheme part: `'*'` becomes `https?`, otherwise the scheme itself. -/
def schemeRgx (scheme : String) : Rgx :=
  if scheme == "*" then .cat (litR "http".toList) (optR (.chr (fun d => d == 's')))
  else litR scheme.toList

/-- The suffix of a `*.` host after regex escaping: every character but
`*` is escaped, hence a literal atom, while a `*` is left unescaped and
acts as a JavaScript quantifier on the preceding atom.  A `*` with
nothing quantifiable before it — at the very start, where it would
follow the already-quantified optional subdomain group, or directly
after another `*` — makes `new RegExp` throw ("nothing to repeat"),
which the source catches and turns into null.  Arguments: remaining
characters, regex built so far, and the pending last atom (if any). -/
def hostSuffixAux : List Char → Rgx → Option Rgx → Option Rgx
  | [], built, none => some built
  | [], built, some a => some (.cat built a)
  | '*' :: _, _, none => none
  | '*' :: rest, built, some a => hostSuffixAux rest (.cat built (.star a)) none
  | c :: rest, built, none => hostSuffixAux rest built (some (.chr (fun d => d == c)))
  | c :: rest, built, some a =>
      hostSuffixAux rest (.cat built a) (some (.chr (fun d => d == c)))

/-- Host part of the compiled regex.
* a host beginning `*.` becomes `(?:[^\/.]+\.)?suffix` — an OPTIONAL
  single dot-free label in front of the escaped suffix, in which any
  remaining `*` acts as a quantifier (or invalidates the regex, giving
  `none`), per `hostSuffixAux`;
* a bare `*` host becomes `[^\/]+`;
* any other `*` occurrence rejects the pattern (`none`);
* otherwise the host is matched literally. -/
def hostRgx (host : String) : Option Rgx :=
  let cs := host.toList
  if isPrefixL "*.".toList cs then
    (hostSuffixAux (cs.drop 2) .eps none).map (fun sufR =>
      .cat (optR (.cat (plusR (.chr (fun c => !(c == '/') && !(c == '.'))))
                      (.chr (fun c => c == '.'))))
           sufR)
  else if host == "*" then
    some (plusR (.chr (fun c => !(c == '/'))))
  else if cs.contains '*' then none
  else some (litR cs)

/-- Path part: an explicit path has its `*` wildcards turned into `.*`
(all other characters being escaped, hence literal); an absent path
becomes `(/.*)?`. -/
def pathRgx : Option String → Rgx
  | some p =>
      p.toList.foldr
        (fun c r => if c == '*' then .cat (.star (.chr dotP)) r
                    else .cat (.chr (fun d => d == c)) r) .eps
  | none => optR (.cat (.chr (fun c => c == '/')) (.star (.chr dotP)))

/-- The structural parse performed by the source regex
`^(\*|https?):\/\/([^\/]+)(\/.*)?$`: a scheme among `*`, `http`,
`https`, then `://`, then a nonempty slash-free host, then an optional
path from the first `/` on (the path, matched by `\/.*`, may not
contain a line terminator). -/
def parsePattern (pattern : String) : Option (String × String × Option String) :=
  let pcs := pattern.toList
  let afterScheme : Option (String × List Char) :=
    if isPrefixL "https://".toList pcs then some ("https", pcs.drop 8)
    else if isPrefixL "http://".toList pcs then some ("http", pcs.drop 7)
    else if isPrefixL "*://".toList pcs then some ("*", pcs.drop 4)
    else none
  match afterScheme with
  | none => none
  | some (scheme, cs) =>
    let host := cs.takeWhile (fun c => !(c == '/'))
    let tl := cs.dropWhile (fun c => !(c == '/'))
    if host.isEmpty then none
    else match tl with
      | [] => some (scheme, String.mk host, none)
      | _ => if tl.all dotP then some (scheme, String.mk host, some (String.mk tl))
             else none

/-- `matchPatternToRegExp` from userscript-runner.  `<all_urls>` is
special-cased to `^https?:\/\/.*` (a `test` with no end anchor, encoded
here by a trailing universal star); otherwise the pattern is decomposed
into scheme/host/path and each part is compiled as the source builds its
regex string.  Invalid patterns (unparseable shape, misplaced `*` in the
host) yield `none`; the source additionally wraps regex construction in
try/catch and returns `null` there too, so the outcome is always a
matcher or `null`, never an exception. -/
def matchPatternToRegExp (pattern : String) : Option Rgx :=
  if pattern == "<all_urls>" then
    some (.cat (schemeRgx "*") (.cat (litR "://".toList) (.star (.chr (fun _ => true)))))
  else
    match parsePattern pattern with
    | none => none
    | some (scheme, host, pathPart) =>
      (hostRgx host).map (fun hr =>
        .cat (schemeRgx scheme) (.cat (litR "://".toList) (.cat hr (pathRgx pathPart))))

/-! ## URL parsing (external collaborator) and urlMatches -/

structure ParsedURL where
  protocol : String
  host : String
  pathname : String
  search : String
deriving Repr, DecidableEq

def schemeChar (c : Char) : Bool := c.isAlphanum || c == '+' || c == '-' || c == '.'

/-- Modelled from the spec: URL parsing (`new URL`, the WHATWG parser of
the `url` module) is an external collaborator — "the on-disk JSON
persistence format" and the browser are out of scope, and so is this
library.  This is a simplified model: scheme = leading letter plus
scheme characters before `:` (lowercased); for `http`/`https` a `//`
authority with a nonempty host (lowercased) is required, then pathname
(defaulted to `/`), then `?search`, with any `#fragment` discarded;
other schemes parse to an opaque URL whose protocol suffices for the
scheme check in `urlMatches`.  Percent-decoding, dot-segment and
port/userinfo normalization are not modelled. -/
def parseURL (s : String) : Option ParsedURL :=
  let cs := s.toList
  let schemePart := cs.takeWhile (fun c => !(c == ':'))
  match cs.dropWhile (fun c => !(c == ':')) with
  | [] => none
  | _ :: afterColon =>
    match schemePart with
    | [] => none
    | c0 :: restScheme =>
      if !(c0.isAlpha && restScheme.all schemeChar) then none
      else
        let scheme := String.mk ((c0 :: restScheme).map Char.toLower)
        if scheme == "http" || scheme == "https" then
          match afterColon with
          | '/' :: '/' :: auth0 =>
            let hostPart := auth0.takeWhile (fun c => !(c == '/') && !(c == '?') && !(c == '#'))
            let rest1 := auth0.dropWhile (fun c => !(c == '/') && !(c == '?') && !(c == '#'))
            if hostPart.isEmpty then none
            else
              let pathPart := rest1.takeWhile (fun c => !(c == '?') && !(c == '#'))
              let rest2 := rest1.dropWhile (fun c => !(c == '?') && !(c == '#'))
              let searchPart := rest2.takeWhile (fun c => !(c == '#'))
              some { protocol := scheme ++ ":",
                     host := String.mk (hostPart.map Char.toLower),
                     pathname := if pathPart.isEmpty then "/" else String.mk pathPart,
                     search := String.mk searchPart }
          | _ => none
        else
          some { protocol := scheme ++ ":",
                 host := "",
                 pathname := String.mk (afterColon.takeWhile (fun c => !(c == '#'))),
                 search := "" }

/-- `origin` of a parsed http(s) URL as the source consumes it. -/
def ParsedURL.origin (u : ParsedURL) : String := u.protocol ++ "//" ++ u.host

/-- `urlMatches` from userscript-runner: parse failure or a non-http(s)
protocol short-circuits to `false`; otherwise the fragment-free
`origin + pathname + search` is tested against each pattern in turn,
skipping patterns that fail to compile. -/
def urlMatches (patterns : List String) (urlString : String) : Bool :=
  match parseURL urlString with
  | none => false
  | some u =>
    if !(u.protocol == "http:" || u.protocol == "https:") then false
    else
      let urlToMatch := u.origin ++ u.pathname ++ u.search
      patterns.any (fun pattern =>
        match matchPatternToRegExp pattern with
        | some r => rmatch r urlToMatch.toList
        | none => false)



/-! ## Metadata parsing (userscript-runner, parseMetadata) -/

/-- JavaScript `\s` (the common subset: space, tab, LF, CR, VT, FF;
exotic unicode spaces are not modelled — no metadata in scope uses
them). -/
def wsJS (c : Char) : Bool :=
  c == ' ' || c == '\t' || c == '\n' || c == '\r' ||
  c == Char.ofNat 0x0b || c == Char.ofNat 0x0c

/-- JavaScript `String.prototype.trim` on a character list. -/
def trimL (s : List Char) : List Char :=
  ((s.dropWhile wsJS).reverse.dropWhile wsJS).reverse

/-- Does `s` begin with `//`, optional whitespace, then `marker`
(the shape `\/\/\s*MARKER`)?  If so, return what follows the marker. -/
def stripMarkerAt (marker : List Char) (s : List Char) : Option (List Char) :=
  match s with
  | '/' :: '/' :: rest =>
    let rest2 := rest.dropWhile wsJS
    if isPrefixL marker rest2 then some (rest2.drop marker.length) else none
  | _ => none

/-- First position at which `\/\/\s*MARKER` matches; returns the text
after the marker. -/
def findMarker (marker : List Char) : List Char → Option (List Char)
  | [] => none
  | c :: cs =>
    match stripMarkerAt marker (c :: cs) with
    | some rest => some rest
    | none => findMarker marker cs

/-- Text up to (excluding) the first `\/\/\s*MARKER`; `none` when the
marker never occurs (the source regex then fails as a whole, because the
lazy group cannot be closed). -/
def takeUntilMarker (marker : List Char) : List Char → Option (List Char)
  | [] => none
  | c :: cs =>
    match stripMarkerAt marker (c :: cs) with
    | some _ => some []
    | none => (takeUntilMarker marker cs).map (fun l => c :: l)

/-- Split on newline characters (JavaScript `split('\n')`). -/
def splitLines (s : List Char) : List (List Char) :=
  s.foldr
    (fun c acc =>
      match acc with
      | [] => if c == '\n' then [[], []] else [[c]]
      | l :: ls => if c == '\n' then [] :: l :: ls else (c :: l) :: ls)
    [[]]

/-- One directive line: `^\/\/\s*@(\S+)\s+(.*)` on the trimmed line,
yielding the key and the trimmed value. -/
def parseDirective (line : List Char) : Option (String × String) :=
  match line with
  | '/' :: '/' :: rest =>
    let r1 := rest.dropWhile wsJS
    match r1 with
    | '@' :: r2 =>
      let key := r2.takeWhile (fun c => !(wsJS c))
      let r3 := r2.dropWhile (fun c => !(wsJS c))
      if key.isEmpty then none
      else
        match r3 with
        | [] => none
        | _ :: _ => some (String.mk key, String.mk (trimL (r3.dropWhile wsJS)))
    | _ => none
  | _ => none

/-- Accumulate a directive into the key → ordered values map (a JS
object with string keys in insertion order; repeated keys append). -/
def addMeta (m : List (String × List String)) (k v : String) :
    List (String × List String) :=
  if m.any (fun e => e.1 == k) then
    m.map (fun e => if e.1 == k then (e.1, e.2 ++ [v]) else e)
  else m ++ [(k, [v])]

def lookupMeta (m : List (String × List String)) (k : String) : Option (List String) :=
  (m.find? (fun e => e.1 == k)).map (fun e => e.2)

def validRunAt : List String := ["document-start", "document-end", "document-idle"]

/-- Parsed metadata: the raw key → values map plus the validated fields
the source attaches to it (`match`, `runAt`, `name`). -/
structure Metadata where
  raw : List (String × List String)
  matchList : List String
  runAt : String
  nameList : List String
deriving Repr, DecidableEq

/-- `parseMetadata` from userscript-runner: extract the
`==UserScript== ... ==/UserScript==` block (no block, or an unclosed
one, yields the empty-match default record), accumulate `@key value`
directive lines, then normalize: `match` defaults to the empty list,
`run-at` takes the first value lowercased and falls back to
`document-start` unless it is one of the three known phases, `name`
defaults to `Unnamed Script`. -/
def parseMetadata (content : String) : Metadata :=
  let noBlock : Metadata :=
    { raw := [], matchList := [], runAt := "document-start",
      nameList := ["Unnamed Script"] }
  match (findMarker "==UserScript==".toList content.toList).bind
        (takeUntilMarker "==/UserScript==".toList) with
  | none => noBlock
  | some block =>
    let entries := (splitLines (trimL block)).foldl
      (fun acc line =>
        match parseDirective (trimL line) with
        | some kv => addMeta acc kv.1 kv.2
        | none => acc) []
    let matchList := (lookupMeta entries "match").getD []
    let runAtRaw :=
      match (lookupMeta entries "run-at").bind List.head? with
      | some v =>
        let lv := String.mk (v.toList.map Char.toLower)
        if lv == "" then "document-start" else lv
      | none => "document-start"
    let runAt := if validRunAt.contains runAtRaw then runAtRaw else "document-start"
    let nameList :=
      match lookupMeta entries "name" with
      | some l => if l.isEmpty then ["Unnamed Script"] else l
      | none => ["Unnamed Script"]
    { raw := entries, matchList := matchList, runAt := runAt, nameList := nameList }

/-! ## The script catalog (userscript-runner, loadUserscripts) -/

structure ScriptRecord where
  path : String
  name : String
  content : String
  matchPatterns : List String
  runAt : String
  metadata : List (String × List String)
deriving Repr, DecidableEq

def endsWithL (suf s : List Char) : Bool := isPrefixL suf.reverse s.reverse

/-- One iteration of the `loadUserscripts` loop: skip files without the
`.user.js` suffix, parse metadata, skip records with an empty `match`
list, otherwise build the catalog record.  Directory reading and file
reading are the file system collaborator, externalized here as the
(filename, content) input pair; the directory-prefixing of `path` via
`path.join` is dropped (the filename stands for the full path). -/
def loadUserscript1 (fc : String × String) : Option ScriptRecord :=
  if !(endsWithL ".user.js".toList fc.1.toList) then none
  else
    let md := parseMetadata fc.2
    if md.matchList.isEmpty then none
    else
      let nm :=
        match md.nameList.head? with
        | some n => if n == "" then fc.1 else n
        | none => fc.1
      some { path := fc.1, name := nm, content := fc.2,
             matchPatterns := md.matchList, runAt := md.runAt,
             metadata := md.raw }

/-- `loadUserscripts`: the catalog, in file discovery order. -/
def loadUserscripts (files : List (String × String)) : List ScriptRecord :=
  files.filterMap loadUserscript1

/-! ## The injection plan (main.js, scriptsToInject) -/

structure InjectionPlan where
  documentStart : List ScriptRecord
  documentEnd : List ScriptRecord
  documentIdle : List ScriptRecord
deriving Repr, DecidableEq

def emptyPlan : InjectionPlan := ⟨[], [], []⟩

/-- `scriptsToInject[script.runAt].push(script)` — the record is
appended to the bucket named by its own `runAt`; an unknown `runAt`
(impossible for catalog records, which are validated) is skipped with a
warning. -/
def addToPlan (plan : InjectionPlan) (s : ScriptRecord) : InjectionPlan :=
  if s.runAt == "document-start" then
    { plan with documentStart := plan.documentStart ++ [s] }
  else if s.runAt == "document-end" then
    { plan with documentEnd := plan.documentEnd ++ [s] }
  else if s.runAt == "document-idle" then
    { plan with documentIdle := plan.documentIdle ++ [s] }
  else plan

/-- The `scriptsToInject` construction in main.js: walk the catalog in
order and bucket each record whose patterns match the target URL. -/
def scriptsToInject (catalog : List ScriptRecord) (targetUrl : String) : InjectionPlan :=
  catalog.foldl
    (fun plan script =>
      if urlMatches script.matchPatterns targetUrl then addToPlan plan script
      else plan)
    emptyPlan

/-! ## The GM storage bridge (main.js, gm*Bridge functions)

The in-memory `gmStorage` is a plain JavaScript object, so the bridge
inherits JS object semantics, not map semantics.  A `JsObj` models it
as its own enumerable string-keyed properties in insertion order
(values are an opaque parameter — the bridge never inspects them)
together with a flag telling whether its [[Prototype]] chain is still
the standard one.  Arbitrary own tables are reachable initial states:
`JSON.parse` of the storage file (main.js loads it on startup) creates
own data properties even for the keys "__proto__" and
"hasOwnProperty".

Two prototype effects matter:
* `gmStorage[key] = value` for key "__proto__" with no own property of
  that name hits the inherited `Object.prototype.__proto__` accessor
  and creates NO own property; the accessor ignores primitive values
  and replaces the prototype when handed an object or null (the
  `isObjLike` predicate on values), after which behavior depends on the
  written object's shape and this model reports `unmodelled`;
* `gmStorage.hasOwnProperty(key)` resolves the property
  "hasOwnProperty" first: an own entry shadows the inherited method,
  and bridged values are JSON data, never callable, so the call throws
  and the exposed bridge function rejects (`threw`).

Each mutating call that resolves returns the new object paired with a
`Bool` recording whether `saveGmStorage` (the durable write-through)
was invoked before the call resolved. -/

structure JsObj (α : Type) where
  own : List (String × α)
  protoIntact : Bool
deriving Repr, DecidableEq

/-- Outcome of one bridged call: it resolves with a result, it rejects
with a thrown error, or it left the modelled fragment (the prototype
was replaced by an object-valued `__proto__` write). -/
inductive BridgeOutcome (β : Type) where
  | ok : β → BridgeOutcome β
  | threw : BridgeOutcome β
  | unmodelled : BridgeOutcome β
deriving Repr, DecidableEq

def hasKey {α : Type} (s : List (String × α)) (k : String) : Bool :=
  s.any (fun e => e.1 == k)

/-- Own-property write `s[k] = v` once the assignment is known to reach
the own table: an existing own property is updated in place, otherwise
the property is appended. -/
def setOwn {α : Type} (s : List (String × α)) (k : String) (v : α) :
    List (String × α) :=
  if hasKey s k then s.map (fun e => if e.1 == k then (e.1, v) else e)
  else s ++ [(k, v)]

/-- Own-property read `s[k]`, with a default for the absent case (the
bridge only reads under a positive `hasOwnProperty` guard). -/
def getOwn {α : Type} (s : List (String × α)) (k : String) (d : α) : α :=
  match s.find? (fun e => e.1 == k) with
  | some e => e.2
  | none => d

/-- The method call `o.hasOwnProperty(k)`: an own "hasOwnProperty"
entry shadows the inherited method with a non-callable JSON value, so
the call throws; with the standard prototype the method answers own
membership; with a replaced prototype the lookup is not modelled. -/
def hasOwnPropertyCall {α : Type} (o : JsObj α) (k : String) : BridgeOutcome Bool :=
  if hasKey o.own "hasOwnProperty" then .threw
  else if o.protoIntact then .ok (hasKey o.own k)
  else .unmodelled

/-- The assignment `gmStorage[key] = value` on an intact prototype: a
key with no own property named "__proto__" triggers the inherited
accessor (no own write; the prototype is replaced when the value is an
object or null), every other case writes the own table. -/
def jsAssign {α : Type} (isObjLike : α → Bool) (o : JsObj α) (k : String) (v : α) :
    JsObj α :=
  if k == "__proto__" && !(hasKey o.own k) then
    (if isObjLike v then { o with protoIntact := false } else o)
  else { o with own := setOwn o.own k v }

/-- `gmSetValueBridge`: `gmStorage[key] = value; await saveGmStorage()`
— assignment never throws here, and the durable write is always
invoked. -/
def gmSetValueBridge {α : Type} (isObjLike : α → Bool) (o : JsObj α)
    (k : String) (v : α) : BridgeOutcome (JsObj α × Bool) :=
  if o.protoIntact then .ok (jsAssign isObjLike o k v, true) else .unmodelled

/-- `gmGetValueBridge`: `gmStorage.hasOwnProperty(key) ?
gmStorage[key] : defaultValue` — the guard call may throw. -/
def gmGetValueBridge {α : Type} (o : JsObj α) (k : String) (d : α) :
    BridgeOutcome α :=
  match hasOwnPropertyCall o k with
  | .ok true => .ok (getOwn o.own k d)
  | .ok false => .ok d
  | .threw => .threw
  | .unmodelled => .unmodelled

/-- `gmDeleteValueBridge`: only under a positive (non-throwing)
`hasOwnProperty` guard does it delete the own property and invoke
`saveGmStorage`; a negative guard resolves with no store change and no
save. -/
def gmDeleteValueBridge {α : Type} (o : JsObj α) (k : String) :
    BridgeOutcome (JsObj α × Bool) :=
  match hasOwnPropertyCall o k with
  | .ok true => .ok ({ o with own := o.own.filter (fun e => !(e.1 == k)) }, true)
  | .ok false => .ok (o, false)
  | .threw => .threw
  | .unmodelled => .unmodelled

/-- `gmListValuesBridge`: `Object.keys(gmStorage)` — own enumerable
keys in insertion order; never throws, whatever the prototype. -/
def gmListValuesBridge {α : Type} (o : JsObj α) : List String :=
  o.own.map (fun e => e.1)

/-- A caller-issued sequence of mutating storage calls. -/
inductive StoreOp (α : Type) where
  | setV : String → α → StoreOp α
  | delV : String → StoreOp α

/-- A set whose key is an ordinary one — neither the "__proto__"
accessor key nor the "hasOwnProperty" method name; deletes are
harmless for every key. -/
def safeOp {α : Type} : StoreOp α → Bool
  | .setV k _ => !(k == "__proto__") && !(k == "hasOwnProperty")
  | .delV _ => true

/-- Run a call sequence through the bridge, stopping (`none`) if any
call fails to resolve. -/
def applyOps {α : Type} (isObjLike : α → Bool) :
    List (StoreOp α) → JsObj α → Option (JsObj α)
  | [], o => some o
  | .setV k v :: ops, o =>
    match gmSetValueBridge isObjLike o k v with
    | .ok p => applyOps isObjLike ops p.1
    | _ => none
  | .delV k :: ops, o =>
    match gmDeleteValueBridge o k with
    | .ok p => applyOps isObjLike ops p.1
    | _ => none

/-- Whether a key survives a set/delete sequence, read off the sequence
itself (the spec's "the keys that survive that sequence"): the last
operation touching the key decides, and an untouched key keeps its
initial presence. -/
def survives {α : Type} (ini : Bool) (ops : List (StoreOp α)) (k : String) : Bool :=
  ops.foldl
    (fun b op =>
      match op with
      | .setV k2 _ => if k2 == k then true else b
      | .delV k2 => if k2 == k then false else b)
    ini

/-! ## Effective response type (main.js, GM_xmlhttpRequest bridge) -/

/-- `['json', 'text', 'arraybuffer', 'blob'].includes(responseType)`. -/
def knownResponseType (rt : String) : Bool :=
  rt == "json" || rt == "text" || rt == "arraybuffer" || rt == "blob"

/-- JavaScript `String.prototype.includes` (substring test). -/
def strContains (s pat : String) : Bool :=
  (List.range (s.toList.length + 1)).any (fun i => isPrefixL pat.toList (s.toList.drop i))

/-- The response-type resolution of the bridge's success path
(main.js): the effective content type is `overrideMimeType ||
content-type-header || ''`; the base type is the requested type when it
is one of the four known types, else `text`; and only when the
requested type is falsy (absent or empty) does a content type
containing "json" override the result to `json`.  `none` models an
absent `responseType` / `overrideMimeType` / content-type header. -/
def effectiveResponseType
    (responseType overrideMimeType contentTypeHeader : Option String) : String :=
  let contentType := contentTypeHeader.getD ""
  let effCT :=
    match overrideMimeType with
    | some o => if o == "" then contentType else o
    | none => contentType
  let base :=
    match responseType with
    | some rt => if knownResponseType rt then rt else "text"
    | none => "text"
  let truthy :=
    match responseType with
    | some rt => !(rt == "")
    | none => false
  if !truthy && strContains effCT "json" then "json" else base

/-- The resolution rule exactly as the spec sentence words it: the
explicitly requested type when it is one of the four; otherwise `json`
when the response's content-type header contains "json"; otherwise
`text`. -/
def specEffectiveResponseType
    (responseType contentTypeHeader : Option String) : String :=
  match responseType with
  | some rt =>
    if knownResponseType rt then rt
    else if strContains (contentTypeHeader.getD "") "json" then "json"
    else "text"
  | none =>
    if strContains (contentTypeHeader.getD "") "json" then "json" else "text"

/-- The amended rule: the requested type when known; content sniffing
(for "json" in the override MIME type if truthy, else the content-type
header) only when no truthy type was requested; a truthy unknown
requested type yields `text` without sniffing. -/
def amendedEffectiveResponseType
    (responseType overrideMimeType contentTypeHeader : Option String) : String :=
  let effCT :=
    match overrideMimeType with
    | some o => if o == "" then contentTypeHeader.getD "" else o
    | none => contentTypeHeader.getD ""
  match responseType with
  | some rt =>
    if knownResponseType rt then rt
    else if rt == "" then (if strContains effCT "json" then "json" else "text")
    else "text"
  | none => if strContains effCT "json" then "json" else "text"

/-! ## The GM_xmlhttpRequest bridge protocol (main.js + polyfill)

Per-request event model.  The host bridge sends callback events over
one ordered channel (`page.evaluate` calls issued in order); the
page-side `GM_xmlhttpRequest_callback_handler` delivers an event to the
caller's callbacks only while the request id is still in `requestMap`,
and removes the id on any of the four terminal events, so later events
for the same id are dropped with a warning.

Timing is abstracted to one number: `fetchTime`, the instant the
underlying `fetch` would settle.  A supplied truthy timeout arms a
timer at issuance: if it fires first (`timeout < fetchTime`) it aborts
the fetch and sends `ontimeout`; the aborted fetch then rejects with an
`AbortError`, which the catch block maps to a (late) `onabort`.
Otherwise the settled fetch yields `onload` (body read and processed),
or `onerror` on a network error or a body-read failure.  Payloads are
not modelled; the page-side base64 decode of host-encoded binary bodies
cannot fail, so the handler's decode-failure branch is unreachable. -/

inductive XhrEvent where
  | onload | onerror | onabort | ontimeout
deriving Repr, DecidableEq

inductive FetchOutcome where
  | success : Bool → FetchOutcome
  | networkError : FetchOutcome
deriving Repr, DecidableEq

/-- The callback events the host bridge sends for one request, in
issuance order (`success ok` carries whether the body read succeeds). -/
def bridgeEvents (timeout : Option Nat) (fetchTime : Nat) (outcome : FetchOutcome) :
    List XhrEvent :=
  let timerFires :=
    match timeout with
    | some t => !(t == 0) && decide (t < fetchTime)
    | none => false
  if timerFires then [.ontimeout, .onabort]
  else
    match outcome with
    | .success ok => if ok then [.onload] else [.onerror]
    | .networkError => [.onerror]

def terminalEvents : List XhrEvent := [.onload, .onerror, .onabort, .ontimeout]

/-- The page-side handler's delivery discipline: an event reaches the
caller's callbacks only while the id is registered; a terminal event
retires the id. -/
def callbackHandlerRun (events : List XhrEvent) : List XhrEvent :=
  (events.foldl
    (fun (st : Bool × List XhrEvent) e =>
      if st.1 then (!(terminalEvents.contains e), st.2 ++ [e]) else st)
    (true, [])).2

/-- The caller-visible event sequence of one GM_xmlhttpRequest call.
`abortInvokedAt` records whether (and when) the caller invoked the
abort handle returned at issuance.  In the polyfill that handle only
logs and warns that a `GM_xmlhttpRequest_abort_bridge` would be needed
"for full effect": it performs no bridge call, fires no callback and
does not touch `requestMap`, so the delivered events do not depend on
it at all. -/
def runRequest (timeout : Option Nat) (fetchTime : Nat) (outcome : FetchOutcome)
    (abortInvokedAt : Option Nat) : List XhrEvent :=
  callbackHandlerRun (bridgeEvents timeout fetchTime outcome)



/-- One step of the `scriptsToInject` loop. -/
def planStep (url : String) (plan : InjectionPlan) (script : ScriptRecord) : InjectionPlan :=
  if urlMatches script.matchPatterns url then addToPlan plan script else plan

/-- A userscript whose only `@match` directive is an invalid pattern
(the unsupported `file://` scheme): it has one raw `@match` entry but
zero valid ones. -/
def invalidMatchScript : String :=
  "// ==UserScript==\n// @name Bad\n// @match file://x\n// ==/UserScript==\nconsole.log(1);"

/-- The catalog record `loadUserscripts` builds for `invalidMatchScript`. -/
def badRecord : ScriptRecord :=
  { path := "bad.user.js", name := "Bad", content := invalidMatchScript,
    matchPatterns := ["file://x"], runAt := "document-start",
    metadata := [("name", ["Bad"]), ("match", ["file://x"])] }

/-- The empty storage object with the standard prototype (the state
main.js starts from when no storage file exists). -/
def emptyGmObj : JsObj Nat := { own := [], protoIntact := true }

/-- A one-key demonstration store. -/
def demoObj : JsObj Nat := { own := [("present", 1)], protoIntact := true }

/-- A store whose own "hasOwnProperty" entry shadows the inherited
method — reachable by a set bridge call on the empty store, or by
loading a storage file whose JSON contains that key. -/
def shadowObj : JsObj Nat := { own := [("hasOwnProperty", 1)], protoIntact := true }

/-- The inputs `urlMatches` short-circuits on: the URL string fails to
parse, or parses with a scheme that is neither http nor https. -/
def unparseableOrNonHttp (s : String) : Bool :=
  match parseURL s with
  | none => true
  | some u => !(u.protocol == "http:" || u.protocol == "https:")

/-! ## Helper lemmas -/

theorem scriptsToInject_eq_foldl (catalog : List ScriptRecord) (url : String) :
    scriptsToInject catalog url = catalog.foldl (planStep url) emptyPlan := rfl

theorem planStep_documentStart (url : String) (plan : InjectionPlan) (s : ScriptRecord) :
    (planStep url plan s).documentStart
      = plan.documentStart
        ++ (if urlMatches s.matchPatterns url && s.runAt == "document-start" then [s] else []) := by
  unfold planStep addToPlan
  cases hm : urlMatches s.matchPatterns url with
  | false => simp [hm]
  | true =>
    cases h1 : s.runAt == "document-start" with
    | true => simp [hm, h1]
    | false =>
      cases h2 : s.runAt == "document-end" with
      | true => simp [hm, h1, h2]
      | false =>
        cases h3 : s.runAt == "document-idle" with
        | true => simp [hm, h1, h2, h3]
        | false => simp [hm, h1, h2, h3]

theorem planStep_documentEnd (url : String) (plan : InjectionPlan) (s : ScriptRecord) :
    (planStep url plan s).documentEnd
      = plan.documentEnd
        ++ (if urlMatches s.matchPatterns url && s.runAt == "document-end" then [s] else []) := by
  unfold planStep addToPlan
  cases hm : urlMatches s.matchPatterns url with
  | false => simp [hm]
  | true =>
    cases h1 : s.runAt == "document-start" with
    | true =>
      have e1 : s.runAt = "document-start" := by simpa using h1
      simp [hm, h1, e1]
    | false =>
      cases h2 : s.runAt == "document-end" with
      | true => simp [hm, h1, h2]
      | false =>
        cases h3 : s.runAt == "document-idle" with
        | true => simp [hm, h1, h2, h3]
        | false => simp [hm, h1, h2, h3]

theorem planStep_documentIdle (url : String) (plan : InjectionPlan) (s : ScriptRecord) :
    (planStep url plan s).documentIdle
      = plan.documentIdle
        ++ (if urlMatches s.matchPatterns url && s.runAt == "document-idle" then [s] else []) := by
  unfold planStep addToPlan
  cases hm : urlMatches s.matchPatterns url with
  | false => simp [hm]
  | true =>
    cases h1 : s.runAt == "document-start" with
    | true =>
      have e1 : s.runAt = "document-start" := by simpa using h1
      simp [hm, h1, e1]
    | false =>
      cases h2 : s.runAt == "document-end" with
      | true =>
        have e2 : s.runAt = "document-end" := by simpa using h2
        simp [hm, h1, h2, e2]
      | false =>
        cases h3 : s.runAt == "document-idle" with
        | true => simp [hm, h1, h2, h3]
        | false => simp [hm, h1, h2, h3]

theorem foldl_planStep_documentStart (url : String) :
    ∀ (catalog : List ScriptRecord) (plan : InjectionPlan),
      (catalog.foldl (planStep url) plan).documentStart
        = plan.documentStart
          ++ catalog.filter (fun s => urlMatches s.matchPatterns url && s.runAt == "document-start")
  | [], plan => by simp
  | s :: rest, plan => by
      rw [List.foldl_cons, foldl_planStep_documentStart url rest, planStep_documentStart]
      cases h : (urlMatches s.matchPatterns url && s.runAt == "document-start") <;>
        simp [List.filter_cons, h]

theorem foldl_planStep_documentEnd (url : String) :
    ∀ (catalog : List ScriptRecord) (plan : InjectionPlan),
      (catalog.foldl (planStep url) plan).documentEnd
        = plan.documentEnd
          ++ catalog.filter (fun s => urlMatches s.matchPatterns url && s.runAt == "document-end")
  | [], plan => by simp
  | s :: rest, plan => by
      rw [List.foldl_cons, foldl_planStep_documentEnd url rest, planStep_documentEnd]
      cases h : (urlMatches s.matchPatterns url && s.runAt == "document-end") <;>
        simp [List.filter_cons, h]

theorem foldl_planStep_documentIdle (url : String) :
    ∀ (catalog : List ScriptRecord) (plan : InjectionPlan),
      (catalog.foldl (planStep url) plan).documentIdle
        = plan.documentIdle
          ++ catalog.filter (fun s => urlMatches s.matchPatterns url && s.runAt == "document-idle")
  | [], plan => by simp
  | s :: rest, plan => by
      rw [List.foldl_cons, foldl_planStep_documentIdle url rest, planStep_documentIdle]
      cases h : (urlMatches s.matchPatterns url && s.runAt == "document-idle") <;>
        simp [List.filter_cons, h]

/-- The three phase buckets of an injection plan are the catalog
filtered (in order) on "patterns match the URL and the record's own
run-at names this phase". -/
theorem scriptsToInject_phases (catalog : List ScriptRecord) (url : String) :
    (scriptsToInject catalog url).documentStart
      = catalog.filter (fun s => urlMatches s.matchPatterns url && s.runAt == "document-start") ∧
    (scriptsToInject catalog url).documentEnd
      = catalog.filter (fun s => urlMatches s.matchPatterns url && s.runAt == "document-end") ∧
    (scriptsToInject catalog url).documentIdle
      = catalog.filter (fun s => urlMatches s.matchPatterns url && s.runAt == "document-idle") := by
  rw [scriptsToInject_eq_foldl]
  refine ⟨?_, ?_, ?_⟩
  · rw [foldl_planStep_documentStart]; rfl
  · rw [foldl_planStep_documentEnd]; rfl
  · rw [foldl_planStep_documentIdle]; rfl

theorem loadUserscript1_match_ne_nil {fc : String × String} {r : ScriptRecord}
    (h : loadUserscript1 fc = some r) : r.matchPatterns ≠ [] := by
  unfold loadUserscript1 at h
  by_cases h1 : (!(endsWithL ".user.js".toList fc.1.toList)) = true
  · rw [if_pos h1] at h; cases h
  · rw [if_neg h1] at h
    by_cases h2 : (parseMetadata fc.2).matchList.isEmpty = true
    · rw [if_pos h2] at h; cases h
    · rw [if_neg h2] at h
      have hr : r.matchPatterns = (parseMetadata fc.2).matchList := by
        cases hh : (parseMetadata fc.2).nameList.head? <;> rw [hh] at h <;>
          simp only [Option.some.injEq] at h <;> rw [← h]
      rw [hr]
      intro hnil
      rw [hnil] at h2
      exact h2 rfl

theorem mem_loadUserscripts_match_ne_nil {files : List (String × String)} {r : ScriptRecord}
    (h : r ∈ loadUserscripts files) : r.matchPatterns ≠ [] := by
  unfold loadUserscripts at h
  rcases List.mem_filterMap.mp h with ⟨fc, _, hfc⟩
  exact loadUserscript1_match_ne_nil hfc

theorem urlMatches_all_invalid {ps : List String} (url : String)
    (h : ps.all (fun p => (matchPatternToRegExp p).isNone) = true) :
    urlMatches ps url = false := by
  unfold urlMatches
  cases hu : parseURL url with
  | none => rfl
  | some u =>
    cases hp : (u.protocol == "http:" || u.protocol == "https:") with
    | false => simp [hp]
    | true =>
      simp only [hp, Bool.not_true, Bool.false_eq_true, if_false]
      rw [List.any_eq_false]
      intro p hps
      have hinv := List.all_eq_true.mp h p hps
      rw [Option.isNone_iff_eq_none] at hinv
      simp [hinv]

theorem find?_replace_eq {α : Type} (v : α) (k : String) :
    ∀ s : List (String × α), hasKey s k = true →
      (s.map (fun e => if e.1 == k then (e.1, v) else e)).find? (fun e => e.1 == k)
        = some (k, v)
  | [], h => by simp [hasKey] at h
  | e :: rest, h => by
      rw [List.map_cons]
      cases he : (e.1 == k) with
      | true =>
        have hk : e.1 = k := by simpa using he
        rw [show (if true = true then (e.1, v) else e) = (e.1, v) from rfl]
        simp only [List.find?]
        rw [show ((e.1, v).1 == k) = true from he, hk]
      | false =>
        have hrest : hasKey rest k = true := by simpa [hasKey, he] using h
        rw [show (if false = true then (e.1, v) else e) = e from rfl]
        simp only [List.find?]
        rw [he]
        exact find?_replace_eq v k rest hrest

theorem find?_append_single {α : Type} (v : α) (k : String) :
    ∀ s : List (String × α), hasKey s k = false →
      (s ++ [(k, v)]).find? (fun e => e.1 == k) = some (k, v)
  | [], _ => by simp [List.find?]
  | e :: rest, h => by
      have he : (e.1 == k) = false := by
        cases hc : (e.1 == k) with
        | false => rfl
        | true => simp [hasKey, hc] at h
      have hrest : hasKey rest k = false := by
        simpa [hasKey, he] using h
      simp [List.find?, he, find?_append_single v k rest hrest]

theorem setOwn_pos {α : Type} {s : List (String × α)} {k : String} (v : α)
    (hk : hasKey s k = true) :
    setOwn s k v = s.map (fun e => if e.1 == k then (e.1, v) else e) := by
  unfold setOwn
  rw [if_pos hk]

theorem setOwn_neg {α : Type} {s : List (String × α)} {k : String} (v : α)
    (hk : hasKey s k = false) :
    setOwn s k v = s ++ [(k, v)] := by
  unfold setOwn
  rw [if_neg (by simp [hk])]

theorem getOwn_after_set {α : Type} (s : List (String × α)) (k : String) (v d : α) :
    getOwn (setOwn s k v) k d = v := by
  cases hk : hasKey s k with
  | true =>
    rw [setOwn_pos v hk]
    unfold getOwn
    rw [find?_replace_eq v k s hk]
  | false =>
    rw [setOwn_neg v hk]
    unfold getOwn
    rw [find?_append_single v k s hk]

theorem find?_filter_ne {α : Type} (k : String) :
    ∀ s : List (String × α),
      (s.filter (fun e => !(e.1 == k))).find? (fun e => e.1 == k) = none
  | [] => rfl
  | e :: rest => by
      cases he : (e.1 == k) <;>
        simp [List.filter_cons, List.find?, he, find?_filter_ne k rest]

theorem getOwn_after_filterOut {α : Type} (s : List (String × α)) (k : String) (d : α) :
    getOwn (s.filter (fun e => !(e.1 == k))) k d = d := by
  unfold getOwn
  rw [find?_filter_ne k s]

theorem hasKey_filter_self {α : Type} (k : String) :
    ∀ s : List (String × α), hasKey (s.filter (fun e => !(e.1 == k))) k = false
  | [] => rfl
  | e :: rest => by
      cases he : (e.1 == k) <;>
        simp [hasKey, List.filter_cons, he, hasKey_filter_self k rest]

theorem hasKey_filter_ne {α : Type} {k kq : String} (hne : (k == kq) = false) :
    ∀ s : List (String × α),
      hasKey (s.filter (fun e => !(e.1 == k))) kq = hasKey s kq
  | [] => rfl
  | e :: rest => by
      cases he : (e.1 == k) with
      | true =>
        have hek : e.1 = k := by simpa using he
        have heq : (e.1 == kq) = false := by rw [hek]; exact hne
        rw [List.filter_cons_of_neg (by simp [he])]
        rw [hasKey_filter_ne hne rest]
        unfold hasKey
        rw [List.any_cons, heq]
        simp
      | false =>
        rw [List.filter_cons_of_pos (by simp [he])]
        unfold hasKey
        rw [List.any_cons, List.any_cons]
        rw [show ((rest.filter (fun e => !(e.1 == k))).any fun e => e.1 == kq)
              = hasKey (rest.filter (fun e => !(e.1 == k))) kq from rfl]
        rw [hasKey_filter_ne hne rest]
        rfl

theorem hasKey_replace {α : Type} (v : α) (k kq : String) :
    ∀ s : List (String × α),
      hasKey (s.map (fun e => if e.1 == k then (e.1, v) else e)) kq = hasKey s kq
  | [] => rfl
  | e :: rest => by
      rw [List.map_cons]
      unfold hasKey
      rw [List.any_cons, List.any_cons]
      rw [show ((rest.map (fun e => if e.1 == k then (e.1, v) else e)).any fun e => e.1 == kq)
            = hasKey (rest.map (fun e => if e.1 == k then (e.1, v) else e)) kq from rfl]
      rw [hasKey_replace v k kq rest]
      cases he : (e.1 == k) with
      | true =>
        rw [show (if true = true then (e.1, v) else e) = (e.1, v) from rfl]
        rfl
      | false => rfl

theorem hasKey_append_single {α : Type} (v : α) (k kq : String) (s : List (String × α)) :
    hasKey (s ++ [(k, v)]) kq = (hasKey s kq || (k == kq)) := by
  simp [hasKey, List.any_append]

theorem hasKey_setOwn {α : Type} (s : List (String × α)) (k kq : String) (v : α) :
    hasKey (setOwn s k v) kq = (if k == kq then true else hasKey s kq) := by
  unfold setOwn
  cases hk : hasKey s k with
  | true =>
    simp only [hk, if_true]
    rw [hasKey_replace]
    cases hkq : (k == kq) with
    | true =>
      have : k = kq := by simpa using hkq
      subst this
      simp [hk]
    | false => simp [hkq]
  | false =>
    simp only [hk, Bool.false_eq_true, if_false]
    rw [hasKey_append_single]
    cases hkq : (k == kq) with
    | true => simp [hkq]
    | false => simp [hkq]

theorem hasKey_filterOut {α : Type} (s : List (String × α)) (k kq : String) :
    hasKey (s.filter (fun e => !(e.1 == k))) kq = (if k == kq then false else hasKey s kq) := by
  cases hkq : (k == kq) with
  | true =>
    have : k = kq := by simpa using hkq
    subst this
    simp [hasKey_filter_self k s]
  | false => simp [hkq, hasKey_filter_ne hkq s]

theorem hasOwnPropertyCall_clean {α : Type} {o : JsObj α} (k : String)
    (hclean : hasKey o.own "hasOwnProperty" = false)
    (hproto : o.protoIntact = true) :
    hasOwnPropertyCall o k = BridgeOutcome.ok (hasKey o.own k) := by
  unfold hasOwnPropertyCall
  rw [if_neg (by simp [hclean]), if_pos hproto]

theorem gmGetValueBridge_clean {α : Type} (o : JsObj α) (k : String) (d : α)
    (hclean : hasKey o.own "hasOwnProperty" = false)
    (hproto : o.protoIntact = true) :
    gmGetValueBridge o k d
      = BridgeOutcome.ok (if hasKey o.own k then getOwn o.own k d else d) := by
  unfold gmGetValueBridge
  rw [hasOwnPropertyCall_clean k hclean hproto]
  cases hk : hasKey o.own k with
  | true => rfl
  | false => rfl

theorem applyOps_ok {α : Type} (isObjLike : α → Bool) (k : String) :
    ∀ (ops : List (StoreOp α)) (o : JsObj α),
      ops.all safeOp = true →
      hasKey o.own "hasOwnProperty" = false →
      o.protoIntact = true →
      ∃ o2, applyOps isObjLike ops o = some o2 ∧
        hasKey o2.own k = survives (hasKey o.own k) ops k
  | [], o, _, _, _ => ⟨o, rfl, rfl⟩
  | .setV k2 v :: ops, o, hsafe, hclean, hproto => by
      rw [List.all_cons, Bool.and_eq_true] at hsafe
      obtain ⟨hop, hops⟩ := hsafe
      unfold safeOp at hop
      rw [Bool.and_eq_true] at hop
      obtain ⟨hp1, hp2⟩ := hop
      rw [Bool.not_eq_true'] at hp1 hp2
      have hstep : gmSetValueBridge isObjLike o k2 v
          = BridgeOutcome.ok ({ o with own := setOwn o.own k2 v }, true) := by
        unfold gmSetValueBridge
        rw [if_pos hproto]
        unfold jsAssign
        rw [if_neg (by simp [hp1])]
      have hclean2 : hasKey (setOwn o.own k2 v) "hasOwnProperty" = false := by
        rw [hasKey_setOwn]
        simp [hp2, hclean]
      obtain ⟨o2, hap, hsur⟩ :=
        applyOps_ok isObjLike k ops { o with own := setOwn o.own k2 v } hops hclean2 hproto
      refine ⟨o2, ?_, ?_⟩
      · unfold applyOps
        rw [hstep]
        exact hap
      · rw [hsur]
        show survives (hasKey (setOwn o.own k2 v) k) ops k
            = survives (hasKey o.own k) (StoreOp.setV k2 v :: ops) k
        rw [hasKey_setOwn]
        rfl
  | .delV k2 :: ops, o, hsafe, hclean, hproto => by
      rw [List.all_cons, Bool.and_eq_true] at hsafe
      obtain ⟨-, hops⟩ := hsafe
      have hcall := hasOwnPropertyCall_clean (o := o) k2 hclean hproto
      cases hk2 : hasKey o.own k2 with
      | true =>
        have hstep : gmDeleteValueBridge o k2
            = BridgeOutcome.ok
                ({ o with own := o.own.filter (fun e => !(e.1 == k2)) }, true) := by
          unfold gmDeleteValueBridge
          rw [hcall, hk2]
        have hclean2 : hasKey (o.own.filter (fun e => !(e.1 == k2))) "hasOwnProperty"
            = false := by
          rw [hasKey_filterOut, hclean]
          exact ite_self false
        obtain ⟨o2, hap, hsur⟩ :=
          applyOps_ok isObjLike k ops
            { o with own := o.own.filter (fun e => !(e.1 == k2)) } hops hclean2 hproto
        refine ⟨o2, ?_, ?_⟩
        · unfold applyOps
          rw [hstep]
          exact hap
        · rw [hsur]
          show survives (hasKey (o.own.filter (fun e => !(e.1 == k2))) k) ops k
              = survives (hasKey o.own k) (StoreOp.delV k2 :: ops) k
          rw [hasKey_filterOut]
          rfl
      | false =>
        have hstep : gmDeleteValueBridge o k2 = BridgeOutcome.ok (o, false) := by
          unfold gmDeleteValueBridge
          rw [hcall, hk2]
        obtain ⟨o2, hap, hsur⟩ := applyOps_ok isObjLike k ops o hops hclean hproto
        refine ⟨o2, ?_, ?_⟩
        · unfold applyOps
          rw [hstep]
          exact hap
        · rw [hsur]
          have hacc : (if k2 == k then false else hasKey o.own k) = hasKey o.own k := by
            cases hc : (k2 == k) with
            | true =>
              have hkk : k2 = k := by simpa using hc
              show false = hasKey o.own k
              rw [← hkk]
              exact hk2.symm
            | false =>
              show hasKey o.own k = hasKey o.own k
              rfl
          show survives (hasKey o.own k) ops k
              = survives (if k2 == k then false else hasKey o.own k) ops k
          rw [hacc]

theorem mem_gmListValues_iff {α : Type} (o : JsObj α) (k : String) :
    k ∈ gmListValuesBridge o ↔ hasKey o.own k = true := by
  unfold gmListValuesBridge hasKey
  rw [List.any_eq_true]
  constructor
  · intro h
    rcases List.mem_map.mp h with ⟨e, he, hk⟩
    exact ⟨e, he, by simp [hk]⟩
  · intro h
    rcases h with ⟨e, he, hk⟩
    exact List.mem_map.mpr ⟨e, he, by simpa using hk⟩

/-! ## Claim theorems -/

/-- C1 (counterexample): by the claim, invoking the abort handle before
any terminal event (here before the fetch settles) cancels the
underlying call and yields exactly one terminal event of kind aborted.
In the code the handle is inert (it only logs), so the underlying call
proceeds and the caller receives a single completed (`onload`) event —
not an aborted one. -/
theorem abort_handle_counterexample :
    runRequest none 10 (FetchOutcome.success true) (some 3) = [XhrEvent.onload] ∧
    runRequest none 10 (FetchOutcome.success true) (some 3) ≠ [XhrEvent.onabort] := by
  constructor
  · rfl
  · decide

/-- C1 (amended): invoking the abort handle returned at issuance has no
effect: it cancels nothing and produces no event, so the delivered
sequence equals the one with no abort invoked; moreover an aborted
event is never delivered to the caller at all — the only `onabort` the
bridge ever sends trails an `ontimeout`, whose delivery has already
retired the request id. -/
theorem abort_handle_has_no_effect (timeout : Option Nat) (fetchTime : Nat)
    (outcome : FetchOutcome) (a : Nat) :
    runRequest timeout fetchTime outcome (some a)
        = runRequest timeout fetchTime outcome none ∧
    XhrEvent.onabort ∉ runRequest timeout fetchTime outcome (some a) := by
  refine ⟨rfl, ?_⟩
  have hcases : bridgeEvents timeout fetchTime outcome = [.ontimeout, .onabort] ∨
      bridgeEvents timeout fetchTime outcome = [.onload] ∨
      bridgeEvents timeout fetchTime outcome = [.onerror] := by
    unfold bridgeEvents
    cases timeout with
    | none =>
      cases outcome with
      | success ok =>
        cases ok
        · exact Or.inr (Or.inr (by simp))
        · exact Or.inr (Or.inl (by simp))
      | networkError => exact Or.inr (Or.inr (by simp))
    | some t =>
      cases h : (!(t == 0) && decide (t < fetchTime)) with
      | true => exact Or.inl (by simp [h])
      | false =>
        cases outcome with
        | success ok =>
          cases ok
          · exact Or.inr (Or.inr (by simp [h]))
          · exact Or.inr (Or.inl (by simp [h]))
        | networkError => exact Or.inr (Or.inr (by simp [h]))
  unfold runRequest
  rcases hcases with h | h | h <;> rw [h] <;> decide

/-- C2: a truthy timeout smaller than the time the underlying fetch
takes to settle yields exactly one delivered terminal event, of kind
timed-out (`ontimeout`); in particular no completed (`onload`) event
and no other terminal event is ever delivered for that request id,
whatever the underlying outcome and whether or not the abort handle was
used.  (The bridge does send a late `onabort` once the aborted fetch
rejects, but the handler already retired the id, so the caller never
sees it.) -/
theorem timeout_yields_single_timed_out_event
    (t fetchTime : Nat) (outcome : FetchOutcome) (abortAt : Option Nat)
    (ht : 0 < t) (hf : t < fetchTime) :
    runRequest (some t) fetchTime outcome abortAt = [XhrEvent.ontimeout] := by
  have h1 : (t == 0) = false := beq_eq_false_iff_ne.mpr (Nat.pos_iff_ne_zero.mp ht)
  have h2 : decide (t < fetchTime) = true := decide_eq_true hf
  have hb : bridgeEvents (some t) fetchTime outcome = [.ontimeout, .onabort] := by
    unfold bridgeEvents
    simp [h1, h2]
  unfold runRequest
  rw [hb]
  rfl

/-- C2 witness: timeout 5, fetch settling at 10. -/
theorem timeout_yields_single_timed_out_event_witness :
    runRequest (some 5) 10 (FetchOutcome.success true) none = [XhrEvent.ontimeout] :=
  timeout_yields_single_timed_out_event 5 10 (FetchOutcome.success true) none
    (by decide) (by decide)

/-- C3: the compiled `*.` host wildcard is `(?:[^\/.]+\.)?suffix`,
whose optional group admits at most ONE dot-free label.  So
`*://*.example.com/*` matches `a.example.com` and `example.com`
itself and rejects `example.com.evil.com` — but it also rejects
`a.b.example.com`, although the claim (like the code's own comment
"matches domain.com and subdomains" and the Violentmonkey match spec it
cites) requires every non-empty subdomain chain to match. -/
theorem subdomain_wildcard_single_label :
    urlMatches ["*://*.example.com/*"] "https://a.example.com/" = true ∧
    urlMatches ["*://*.example.com/*"] "https://example.com/" = true ∧
    urlMatches ["*://*.example.com/*"] "https://example.com.evil.com/" = false ∧
    urlMatches ["*://*.example.com/*"] "https://a.b.example.com/" = false := by
  refine ⟨?_, ?_, ?_, ?_⟩ <;> decide

/-- C4 (counterexample): for a request with `responseType:
"document"` (truthy but not one of the four known types) and a
response whose content-type is `application/json`, the claim's rule
resolves `json` (content-type sniffing applies whenever the requested
type is not one of the four), but the code resolves `text`: its
sniffing step runs only when `responseType` is falsy. -/
theorem effective_response_type_spec_counterexample :
    specEffectiveResponseType (some "document") (some "application/json") = "json" ∧
    effectiveResponseType (some "document") none (some "application/json") = "text" := by
  constructor
  · decide
  · decide

/-- C4 (amended): the effective response type is the requested type
when it is one of json/text/arraybuffer/blob; otherwise, when no truthy
type was requested, `json` exactly when the effective content type (the
override MIME type when supplied and nonempty, else the response's
content-type header) contains "json", else `text`; a truthy
unrecognized requested type yields `text` without sniffing. -/
theorem effective_response_type_characterization
    (responseType overrideMimeType contentTypeHeader : Option String) :
    effectiveResponseType responseType overrideMimeType contentTypeHeader
      = amendedEffectiveResponseType responseType overrideMimeType contentTypeHeader := by
  unfold effectiveResponseType amendedEffectiveResponseType
  cases responseType with
  | none => simp
  | some rt =>
    by_cases h0 : rt = ""
    · subst h0
      have hk : knownResponseType "" = false := by decide
      simp [hk]
    · have h0b : (rt == "") = false := beq_eq_false_iff_ne.mpr h0
      cases h1 : knownResponseType rt with
      | true => simp [h1, h0b]
      | false => simp [h1, h0b]

/-- C5 (counterexample): by the claim a script with zero VALID `@match`
entries is excluded from the catalog.  `invalidMatchScript` has a
single `@match` entry, which is invalid (`file://` is rejected), hence
zero valid entries — yet `loadUserscripts` keeps it, because the
catalog check counts raw `@match` entries, not valid ones. -/
theorem invalid_only_match_script_in_catalog :
    loadUserscripts [("bad.user.js", invalidMatchScript)] = [badRecord] ∧
    badRecord.matchPatterns.all (fun p => (matchPatternToRegExp p).isNone) = true := by
  constructor
  · rfl
  · decide

/-- C5 (amended): every catalog record carries at least one raw
`@match` entry (a script with zero entries is dropped when the catalog
is built); a script whose entries are all invalid stays in the catalog,
but its patterns can never match any URL, so it is absent from every
phase of every injection plan. -/
theorem no_match_dropped_invalid_never_injected
    (files : List (String × String)) (url : String) (r : ScriptRecord)
    (hr : r ∈ loadUserscripts files) :
    r.matchPatterns ≠ [] ∧
    (r.matchPatterns.all (fun p => (matchPatternToRegExp p).isNone) = true →
      r ∉ (scriptsToInject (loadUserscripts files) url).documentStart ∧
      r ∉ (scriptsToInject (loadUserscripts files) url).documentEnd ∧
      r ∉ (scriptsToInject (loadUserscripts files) url).documentIdle) := by
  refine ⟨mem_loadUserscripts_match_ne_nil hr, fun hinv => ?_⟩
  have hfalse := urlMatches_all_invalid url hinv
  obtain ⟨h1, h2, h3⟩ := scriptsToInject_phases (loadUserscripts files) url
  refine ⟨?_, ?_, ?_⟩
  · rw [h1]
    intro hmem
    rcases List.mem_filter.mp hmem with ⟨-, hcond⟩
    rw [hfalse] at hcond
    simp at hcond
  · rw [h2]
    intro hmem
    rcases List.mem_filter.mp hmem with ⟨-, hcond⟩
    rw [hfalse] at hcond
    simp at hcond
  · rw [h3]
    intro hmem
    rcases List.mem_filter.mp hmem with ⟨-, hcond⟩
    rw [hfalse] at hcond
    simp at hcond

/-- C5 witness: the amended statement at the invalid-only-match record. -/
theorem no_match_dropped_invalid_never_injected_witness :
    badRecord.matchPatterns ≠ [] ∧
    (badRecord.matchPatterns.all (fun p => (matchPatternToRegExp p).isNone) = true →
      badRecord ∉ (scriptsToInject (loadUserscripts [("bad.user.js", invalidMatchScript)])
        "https://example.com/").documentStart ∧
      badRecord ∉ (scriptsToInject (loadUserscripts [("bad.user.js", invalidMatchScript)])
        "https://example.com/").documentEnd ∧
      badRecord ∉ (scriptsToInject (loadUserscripts [("bad.user.js", invalidMatchScript)])
        "https://example.com/").documentIdle) :=
  no_match_dropped_invalid_never_injected [("bad.user.js", invalidMatchScript)]
    "https://example.com/" badRecord (by decide)

/-- C6: each phase bucket of an injection plan is exactly the catalog
filtered, in catalog order, on "the record's patterns match the URL and
the record's own run-at names this phase".  Hence a matching record
lands only in the phase its run-at names, it appears there once per
catalog occurrence (one boolean `urlMatches` guards insertion, however
many of its patterns match), and order within a phase is catalog
discovery order. -/
theorem injection_plan_partitions_catalog (catalog : List ScriptRecord) (url : String) :
    (scriptsToInject catalog url).documentStart
      = catalog.filter (fun s => urlMatches s.matchPatterns url && s.runAt == "document-start") ∧
    (scriptsToInject catalog url).documentEnd
      = catalog.filter (fun s => urlMatches s.matchPatterns url && s.runAt == "document-end") ∧
    (scriptsToInject catalog url).documentIdle
      = catalog.filter (fun s => urlMatches s.matchPatterns url && s.runAt == "document-idle") :=
  scriptsToInject_phases catalog url

/-- C7: match-pattern compilation is a total function: every input
string yields either a compiled matcher (`isSome`) or the explicit
rejection outcome `none` (`isNone`) — the source returns null on every
rejection path and wraps regex construction in try/catch, so no
exception reaches the caller — and both outcomes are realized. -/
theorem match_pattern_compilation_total (p : String) :
    ((matchPatternToRegExp p).isSome = true ∨ (matchPatternToRegExp p).isNone = true) ∧
    (matchPatternToRegExp "*://*.example.com/*").isSome = true ∧
    (matchPatternToRegExp "http://a*a/").isNone = true := by
  refine ⟨?_, by decide, by decide⟩
  cases matchPatternToRegExp p <;> simp

/-- C8 (counterexample): by the claim, set(key, value) followed by
get(key, default) returns the value for every key.  For key
"__proto__" on the empty store, the JS assignment hits the inherited
`Object.prototype.__proto__` accessor and creates no own property (a
primitive value is simply swallowed): the set call resolves with the
store unchanged, the following get returns the default 0 rather than
the stored 7, and list() does not contain the key. -/
theorem proto_key_round_trip_counterexample :
    gmSetValueBridge (fun _ => false) emptyGmObj "__proto__" 7
      = BridgeOutcome.ok (emptyGmObj, true) ∧
    gmGetValueBridge emptyGmObj "__proto__" 0 = BridgeOutcome.ok 0 ∧
    "__proto__" ∉ gmListValuesBridge emptyGmObj ∧
    (0 : Nat) ≠ 7 := by
  refine ⟨by decide, by decide, by decide, by decide⟩

/-- C8 (amended): on a store with no own "hasOwnProperty" entry and an
intact prototype, and for ordinary keys (neither "__proto__" nor
"hasOwnProperty"): a set followed by a get of the same key resolves
with the stored value, not the default; a delete followed by a get
resolves with the default; and any resolving sequence of ordinary sets
and deletes ends in a store whose listed keys are exactly those that
survive the sequence. -/
theorem storage_bridge_round_trip_amended {α : Type} (isObjLike : α → Bool)
    (o : JsObj α) (k : String) (v d : α) (ops : List (StoreOp α))
    (hclean : hasKey o.own "hasOwnProperty" = false)
    (hproto : o.protoIntact = true)
    (hk1 : (k == "__proto__") = false)
    (hk2 : (k == "hasOwnProperty") = false)
    (hsafe : ops.all safeOp = true) :
    (∃ o2, gmSetValueBridge isObjLike o k v = BridgeOutcome.ok (o2, true) ∧
      gmGetValueBridge o2 k d = BridgeOutcome.ok v) ∧
    (∃ o3, gmDeleteValueBridge o k = BridgeOutcome.ok o3 ∧
      gmGetValueBridge o3.1 k d = BridgeOutcome.ok d) ∧
    (∃ o4, applyOps isObjLike ops o = some o4 ∧
      (k ∈ gmListValuesBridge o4 ↔ survives (hasKey o.own k) ops k = true)) := by
  refine ⟨?_, ?_, ?_⟩
  · have hset : gmSetValueBridge isObjLike o k v
        = BridgeOutcome.ok ({ o with own := setOwn o.own k v }, true) := by
      unfold gmSetValueBridge
      rw [if_pos hproto]
      unfold jsAssign
      rw [if_neg (by simp [hk1])]
    refine ⟨{ o with own := setOwn o.own k v }, hset, ?_⟩
    have h1 : hasKey (setOwn o.own k v) "hasOwnProperty" = false := by
      rw [hasKey_setOwn]
      simp [hk2, hclean]
    have h2 : hasKey (setOwn o.own k v) k = true := by
      rw [hasKey_setOwn]
      simp
    rw [gmGetValueBridge_clean { o with own := setOwn o.own k v } k d h1 hproto]
    show BridgeOutcome.ok
        (if hasKey (setOwn o.own k v) k then getOwn (setOwn o.own k v) k d else d)
      = BridgeOutcome.ok v
    rw [if_pos h2, getOwn_after_set]
  · have hcall := hasOwnPropertyCall_clean (o := o) k hclean hproto
    cases hdel : hasKey o.own k with
    | true =>
      have hstep : gmDeleteValueBridge o k
          = BridgeOutcome.ok
              ({ o with own := o.own.filter (fun e => !(e.1 == k)) }, true) := by
        unfold gmDeleteValueBridge
        rw [hcall, hdel]
      refine ⟨_, hstep, ?_⟩
      have h1 : hasKey (o.own.filter (fun e => !(e.1 == k))) "hasOwnProperty"
          = false := by
        rw [hasKey_filterOut, hclean]
        exact ite_self false
      show gmGetValueBridge { o with own := o.own.filter (fun e => !(e.1 == k)) } k d
          = BridgeOutcome.ok d
      rw [gmGetValueBridge_clean { o with own := o.own.filter (fun e => !(e.1 == k)) }
            k d h1 hproto]
      show BridgeOutcome.ok
          (if hasKey (o.own.filter (fun e => !(e.1 == k))) k
           then getOwn (o.own.filter (fun e => !(e.1 == k))) k d else d)
        = BridgeOutcome.ok d
      rw [if_neg (by simp [hasKey_filter_self k o.own])]
    | false =>
      have hstep : gmDeleteValueBridge o k = BridgeOutcome.ok (o, false) := by
        unfold gmDeleteValueBridge
        rw [hcall, hdel]
      refine ⟨_, hstep, ?_⟩
      show gmGetValueBridge o k d = BridgeOutcome.ok d
      rw [gmGetValueBridge_clean o k d hclean hproto]
      rw [if_neg (by simp [hdel])]
  · obtain ⟨o4, hap, hsur⟩ := applyOps_ok isObjLike k ops o hsafe hclean hproto
    refine ⟨o4, hap, ?_⟩
    rw [mem_gmListValues_iff, hsur]

/-- C8 witness: the amended round trip on the empty store at key "a"
with the sequence set "b" then delete "b". -/
theorem storage_bridge_round_trip_amended_witness :
    (∃ o2, gmSetValueBridge (fun _ => false) emptyGmObj "a" 7
        = BridgeOutcome.ok (o2, true) ∧
      gmGetValueBridge o2 "a" 0 = BridgeOutcome.ok 7) ∧
    (∃ o3, gmDeleteValueBridge emptyGmObj "a" = BridgeOutcome.ok o3 ∧
      gmGetValueBridge o3.1 "a" 0 = BridgeOutcome.ok 0) ∧
    (∃ o4, applyOps (fun _ => false) [StoreOp.setV "b" 1, StoreOp.delV "b"] emptyGmObj
        = some o4 ∧
      ("a" ∈ gmListValuesBridge o4 ↔
        survives (hasKey emptyGmObj.own "a")
          [StoreOp.setV "b" 1, StoreOp.delV "b"] "a" = true)) :=
  storage_bridge_round_trip_amended (fun _ => false) emptyGmObj "a" 7 0
    [StoreOp.setV "b" 1, StoreOp.delV "b"]
    (by decide) rfl (by decide) (by decide) (by decide)

/-- C9 (counterexample): by the claim, a delete of a present key
removes it and attempts the durable write before the call resolves.
The store with an own "hasOwnProperty" entry — reachable from the
empty store by one set bridge call, as the first conjunct shows, or by
loading a storage file containing that key — has the key present, yet
deleting it makes `gmStorage.hasOwnProperty(key)` call the stored
non-callable value: the call throws, nothing is removed, and no
durable write is attempted. -/
theorem shadowed_delete_counterexample :
    gmSetValueBridge (fun _ => false) emptyGmObj "hasOwnProperty" 1
      = BridgeOutcome.ok (shadowObj, true) ∧
    hasKey shadowObj.own "hasOwnProperty" = true ∧
    gmDeleteValueBridge shadowObj "hasOwnProperty" = BridgeOutcome.threw := by
  refine ⟨by decide, by decide, by decide⟩

/-- C9 (amended): on a store with no own "hasOwnProperty" entry and an
intact prototype, deleting an absent key resolves leaving the store
untouched without invoking the durable write (`saveGmStorage`), and
deleting a present key resolves having removed it and invoked the
durable write. -/
theorem delete_value_save_discipline_amended {α : Type} (o : JsObj α) (k : String)
    (hclean : hasKey o.own "hasOwnProperty" = false)
    (hproto : o.protoIntact = true) :
    (hasKey o.own k = false → gmDeleteValueBridge o k = BridgeOutcome.ok (o, false)) ∧
    (hasKey o.own k = true →
      ∃ o2, gmDeleteValueBridge o k = BridgeOutcome.ok (o2, true) ∧
        hasKey o2.own k = false) := by
  have hcall := hasOwnPropertyCall_clean (o := o) k hclean hproto
  constructor
  · intro h
    unfold gmDeleteValueBridge
    rw [hcall, h]
  · intro h
    refine ⟨{ o with own := o.own.filter (fun e => !(e.1 == k)) }, ?_, ?_⟩
    · unfold gmDeleteValueBridge
      rw [hcall, h]
    · exact hasKey_filter_self k o.own

/-- C9 witness: a clean one-key store, at an absent and at the present
key. -/
theorem delete_value_save_discipline_amended_witness :
    gmDeleteValueBridge demoObj "absent" = BridgeOutcome.ok (demoObj, false) ∧
    ∃ o2, gmDeleteValueBridge demoObj "present" = BridgeOutcome.ok (o2, true) ∧
      hasKey o2.own "present" = false :=
  ⟨(delete_value_save_discipline_amended demoObj "absent" (by decide) rfl).1 (by decide),
   (delete_value_save_discipline_amended demoObj "present" (by decide) rfl).2 (by decide)⟩

/-- C10: for every pattern list, an input string that does not parse as
a URL, or parses with a scheme other than http/https, makes `urlMatches`
return false (and, being a total function, it never throws). -/
theorem urlMatches_false_on_unparseable_or_non_http
    (patterns : List String) (s : String) (h : unparseableOrNonHttp s = true) :
    urlMatches patterns s = false := by
  unfold unparseableOrNonHttp at h
  unfold urlMatches
  cases hu : parseURL s with
  | none => rfl
  | some u =>
    rw [hu] at h
    rw [Bool.not_eq_true'] at h
    simp [h]

/-- C10 witness: a non-http scheme and a string with no scheme at all. -/
theorem urlMatches_false_on_unparseable_or_non_http_witness :
    urlMatches ["<all_urls>"] "ftp://a.b/" = false ∧
    urlMatches ["<all_urls>"] "not a url" = false :=
  ⟨urlMatches_false_on_unparseable_or_non_http ["<all_urls>"] "ftp://a.b/" (by decide),
   urlMatches_false_on_unparseable_or_non_http ["<all_urls>"] "not a url" (by decide)⟩

/-! ## Sanity checks on concrete inputs -/

example : urlMatches ["*://*.example.com/*"] "https://sub.example.com/path" = true := by decide
example : urlMatches ["<all_urls>"] "https://a.b/c?d" = true := by decide
example : urlMatches ["<all_urls>"] "http://x.y/" = true := by decide
example : urlMatches ["<all_urls>"] "ftp://a.b/" = false := by decide
example : urlMatches ["https://a.b/c"] "https://a.b/c#frag" = true := by decide
example : urlMatches ["*://example.com/*"] "https://example.com/page?q=1" = true := by decide
example : urlMatches ["*://*/*"] "https://anything.example/x" = true := by decide
example : urlMatches ["*://*.a*b/*"] "https://aaab/" = true := by decide
example : urlMatches ["*://*.a*b/*"] "https://axb/" = false := by decide
example : (matchPatternToRegExp "*://*.*x/*").isNone = true := by decide

end PUM
